import Mathlib

/-!
Verification of the configuration type-safety validation engine of
`src/config/config_base.py` (class `ConfigBase` / `AttrDocBase`).

The first part shallowly embeds the annotation grammar validator:
`_get_real_type`, `_validate_union_type`, `_validate_list_set_type`,
`_validate_dict_type`, `_discourage_any_usage` and the per-field body of
`model_post_init`.  Python type annotations are modelled by the inductive
type `Ann`; `typing.get_origin` / `typing.get_args` are modelled by
`getOrigin` / `getArgs`; raising `TypeError` is modelled by `Except.error`;
each `logger.warning` call is modelled by appending the warned field name
to a returned list of warnings.

The second part embeds the field-documentation extractor
`_extract_field_docs`, over a model of the `ast` statement nodes that the
function inspects.
-/

set_option autoImplicit false

namespace ConfigBase

/-- The atomic ("原子") annotation classes the validator special-cases:
`int, float, str, bool, complex, bytes, type(None)`. -/
inductive PrimTy where
  | int
  | float
  | str
  | bool
  | bytes
  | complex
  | noneType
deriving DecidableEq, Repr

/-- The four builtin container kinds the validator names:
`list`, `set`, `dict`, `tuple` (each also reachable via the
`typing.List/Set/Dict/Tuple` aliases). -/
inductive ContKind where
  | list
  | set
  | dict
  | tuple
deriving DecidableEq, Repr

/-- A Python type annotation, as seen by the validator.

* `prim p` — one of the atomic classes;
* `anyA` — `typing.Any`;
* `unionA args` — `typing.Union[...]` (also `typing.Optional[...]`);
* `pepU args` — a PEP 604 union built with `|` (`types.UnionType`);
* `cont k args` — a parameterized container `k[args]`, or a bare
  `typing.List/Set/Dict/Tuple` alias (then `args = []`; `get_origin` of a
  bare alias is the builtin class, with no args);
* `bare k` — the bare builtin class `list`/`set`/`dict`/`tuple` used as an
  annotation (`get_origin` of a builtin class is `None`);
* `nestedModel` — a `ConfigBase` subclass used as an annotation;
* `otherClass` — any other plain class (`get_origin` is `None`);
* `otherGeneric args` — a parameterized generic whose origin is some other
  class (neither a builtin container nor a union nor `ConfigBase`). -/
inductive Ann : Type where
  | prim (p : PrimTy)
  | anyA
  | unionA (args : List Ann)
  | pepU (args : List Ann)
  | cont (k : ContKind) (args : List Ann)
  | bare (k : ContKind)
  | nestedModel
  | otherClass
  | otherGeneric (args : List Ann)
deriving Repr

/-- The "origin" objects the validator compares against: the result of
`typing.get_origin`, or the annotation object itself when `get_origin`
returns `None` (see `_get_real_type`). -/
inductive TOrigin where
  | primO (p : PrimTy)
  | anyO
  | unionO
  | pepUnionO
  | listO
  | setO
  | dictO
  | tupleO
  | nestedO
  | otherO
deriving DecidableEq, Repr

/-- The builtin class acting as origin of a container kind. -/
def contOrigin : ContKind → TOrigin
  | .list => .listO
  | .set => .setO
  | .dict => .dictO
  | .tuple => .tupleO

/-- Model of `typing.get_origin`: `some` origin for parameterized generics
and for bare `typing` aliases, `none` for plain classes, `Any`, and bare
builtin containers. -/
def getOrigin : Ann → Option TOrigin
  | .unionA _ => some .unionO
  | .pepU _ => some .pepUnionO
  | .cont k _ => some (contOrigin k)
  | .otherGeneric _ => some .otherO
  | _ => none

/-- Model of `typing.get_args`. -/
def getArgs : Ann → List Ann
  | .unionA args => args
  | .pepU args => args
  | .cont _ args => args
  | .otherGeneric args => args
  | _ => []

/-- The origin used when `get_origin` is `None`: `_get_real_type` then uses
the annotation object itself as the origin. -/
def selfOrigin : Ann → TOrigin
  | .prim p => .primO p
  | .anyA => .anyO
  | .bare k => contOrigin k
  | .nestedModel => .nestedO
  | .otherClass => .otherO
  | .unionA _ => .unionO
  | .pepU _ => .pepUnionO
  | .cont k _ => contOrigin k
  | .otherGeneric _ => .otherO

/-- Model of `_get_real_type(annotation)`: returns `(origin, args)`; when
`get_origin` is `None` the annotation itself is the origin and the args
are `()`. -/
def get_real_type (a : Ann) : TOrigin × List Ann :=
  match getOrigin a with
  | some o => (o, getArgs a)
  | none => (selfOrigin a, [])

/-- The test `origin in (Union, types.UnionType)`. -/
def isUnionOrigin : TOrigin → Bool
  | .unionO => true
  | .pepUnionO => true
  | _ => false

/-- The test `origin in (list, set, List, Set)` (the typing aliases have the builtin
class as origin, so one test covers all four membership cases). -/
def isListSetOrigin : TOrigin → Bool
  | .listO => true
  | .setO => true
  | _ => false

/-- The test `origin in (tuple, Tuple)`. -/
def isTupleOrigin : TOrigin → Bool
  | .tupleO => true
  | _ => false

/-- The test `origin in (dict, Dict)`. -/
def isDictOrigin : TOrigin → Bool
  | .dictO => true
  | _ => false

/-- The test `origin_type is Any`. -/
def isAnyOrigin : TOrigin → Bool
  | .anyO => true
  | _ => false

/-- The test `origin_type in (int, float, str, bool, complex, bytes, type(None), Any)`
— the atomic acceptance test of `model_post_init`. -/
def isAtomicOrigin : TOrigin → Bool
  | .primO _ => true
  | .anyO => true
  | _ => false

/-- The test `inspect.isclass(origin_type) and issubclass(origin_type, ConfigBase)`. -/
def isNestedOrigin : TOrigin → Bool
  | .nestedO => true
  | _ => false

/-- The test `origin_type in (list, set, dict, List, Set, Dict)`. -/
def isLsdOrigin : TOrigin → Bool
  | .listO => true
  | .setO => true
  | .dictO => true
  | _ => false

/-- The test `a is type(None)`. -/
def isNoneTC : Ann → Bool
  | .prim .noneType => true
  | _ => false

/-- The test `x is Any`. -/
def isAnyAnn : Ann → Bool
  | .anyA => true
  | _ => false

/-- Whether `T` is a union annotation (either `typing.Union` or a PEP 604 union). -/
def isUnionA : Ann → Bool
  | .unionA _ => true
  | .pepU _ => true
  | _ => false

/-- The per-class data the validator methods read from `self`:
`type(self).__name__` and the class-level `_validate_any` flag.
(The source of `ConfigBase` reads no other per-class switch; in particular
it never reads the `suppress_any_warning` attribute that
`src/config/model_configs.py` sets.) -/
structure Cls where
  name : String
  validateAny : Bool

/-- The distinct `TypeError` raise sites of the validator.  Each constructor
carries the data interpolated into the corresponding message: the class
name, the field name, and (where the f-string renders it) the offending
annotation. -/
inductive Err where
  | unionNotAllowed (cls f : String)
  | unionNested (cls f : String)
  | tupleNotAllowed (cls f : String)
  | anyNotAllowed (f : String)
  | listSetArity (cls f : String) (a : Ann)
  | nestedGeneric (cls f : String) (a : Ann)
  | dictArity (cls f : String) (a : Ann)
  | unsupportedGeneric (cls f : String) (a : Ann)

/-- The violation kind of an error, forgetting the interpolated data. -/
inductive ErrKind where
  | unionNotAllowed
  | unionNested
  | tupleNotAllowed
  | anyNotAllowed
  | listSetArity
  | nestedGeneric
  | dictArity
  | unsupportedGeneric
deriving DecidableEq, Repr

/-- Classify an error by its raise site. -/
def errKind : Err → ErrKind
  | .unionNotAllowed _ _ => .unionNotAllowed
  | .unionNested _ _ => .unionNested
  | .tupleNotAllowed _ _ => .tupleNotAllowed
  | .anyNotAllowed _ => .anyNotAllowed
  | .listSetArity _ _ _ => .listSetArity
  | .nestedGeneric _ _ _ => .nestedGeneric
  | .dictArity _ _ _ => .dictArity
  | .unsupportedGeneric _ _ _ => .unsupportedGeneric

/-- Model of `_discourage_any_usage(field_name)`: raises when `_validate_any` is
set, otherwise logs one warning naming the field (unconditionally — the
source consults no further flag). -/
def discourage_any_usage (ctx : Cls) (f : String) : Except Err (List String) :=
  if ctx.validateAny then .error (.anyNotAllowed f)
  else .ok [f]

/-- Model of `_validate_union_type(annotation, field_name)`: rejects any union that
is not a two-armed union with a `None` arm, unwraps `Optional[T]` to `T`,
and rejects a union nested directly under the unwrapped arm.  Returns the
`(origin, args, annotation)` triple of the (possibly unwrapped)
annotation. -/
def validate_union_type (ctx : Cls) (f : String) (a : Ann) :
    Except Err (TOrigin × List Ann × Ann) :=
  let (origin, args) := get_real_type a
  if isUnionOrigin origin then
    if args.length != 2 || args.all (fun x => !isNoneTC x) then
      .error (.unionNotAllowed ctx.name f)
    else
      let other := if isNoneTC (args.getD 1 .anyA) then args.getD 0 .anyA
                   else args.getD 1 .anyA
      let (origin2, args2) := get_real_type other
      if isUnionOrigin origin2 then
        .error (.unionNested ctx.name f)
      else
        .ok (origin2, args2, other)
  else
    .ok (origin, args, a)

/-- Model of `_validate_list_set_type(annotation, field_name)`: for a `list`/`set`
origin, requires exactly one type parameter, applies the `Any` policy to
the element, and rejects an element whose `get_origin` is not `None`.
For any other origin it does nothing. -/
def validate_list_set_type (ctx : Cls) (f : String) (a : Ann) :
    Except Err (List String) :=
  let (origin, args) := get_real_type a
  if isListSetOrigin origin then
    if args.length != 1 then
      .error (.listSetArity ctx.name f a)
    else
      let elem := args.getD 0 .anyA
      match (if isAnyAnn elem then discourage_any_usage ctx f else .ok []) with
      | .error e => .error e
      | .ok ws =>
        if (getOrigin elem).isSome then
          .error (.nestedGeneric ctx.name f a)
        else
          .ok ws
  else
    .ok []

/-- Model of `_validate_dict_type(annotation, field_name)`: requires exactly two
type parameters; the key parameter is never examined.  An `Any` value goes
through the `Any` policy; a value with a non-`None` `get_origin` is
Optional-unwrapped by `_validate_union_type` and must then be a
`list`/`set` (validated by `_validate_list_set_type`) or `Any`; anything
else with an origin is rejected as a nested generic.  (The
`if origin_type is None: return` line of the source is dead: it sits in a
branch where `get_origin(val_t)` was just found truthy.) -/
def validate_dict_type (ctx : Cls) (f : String) (a : Ann) :
    Except Err (List String) :=
  let (_, args) := get_real_type a
  if args.length != 2 then
    .error (.dictArity ctx.name f a)
  else
    let valT := args.getD 1 .anyA
    match (if isAnyAnn valT then discourage_any_usage ctx f else .ok []) with
    | .error e => .error e
    | .ok ws1 =>
      if (getOrigin valT).isSome then
        match validate_union_type ctx f valT with
        | .error e => .error e
        | .ok (originType, _, anno) =>
          if isListSetOrigin originType then
            match validate_list_set_type ctx f anno with
            | .error e => .error e
            | .ok ws2 => .ok (ws1 ++ ws2)
          else if isAnyOrigin originType then
            match discourage_any_usage ctx f with
            | .error e => .error e
            | .ok ws2 => .ok (ws1 ++ ws2)
          else
            .error (.nestedGeneric ctx.name f a)
      else
        .ok ws1

/-- The value-checking tail of `_validate_dict_type` (everything after the
arity check), abstracted over the annotation `a` that the nested-generic
message renders.  `validate_dict_type ctx f (.cont .dict [K, V])` is
definitionally `dict_val_check ctx f (.cont .dict [K, V]) V`; the
abstraction isolates the only place the key parameter can reach. -/
def dict_val_check (ctx : Cls) (f : String) (a valT : Ann) : Except Err (List String) :=
  match (if isAnyAnn valT then discourage_any_usage ctx f else .ok []) with
  | .error e => .error e
  | .ok ws1 =>
    if (getOrigin valT).isSome then
      match validate_union_type ctx f valT with
      | .error e => .error e
      | .ok (originType, _, anno) =>
        if isListSetOrigin originType then
          match validate_list_set_type ctx f anno with
          | .error e => .error e
          | .ok ws2 => .ok (ws1 ++ ws2)
        else if isAnyOrigin originType then
          match discourage_any_usage ctx f with
          | .error e => .error e
          | .ok ws2 => .ok (ws1 ++ ws2)
        else
          .error (.nestedGeneric ctx.name f a)
    else
      .ok ws1

/-- The per-field body of `model_post_init`: Optional/Union handling, the
`tuple`/`Tuple` ban, the `Any` policy, acceptance of atomic origins and of
`ConfigBase` subclasses, the `list/set/dict`-only restriction on generics,
and dispatch to the `list`/`set` and `dict` validators.  (The result of the
first `_get_real_type` call in the source is overwritten by the
`_validate_union_type` result before any use, so it is not modelled.) -/
def model_post_init_field (ctx : Cls) (f : String) (a : Ann) :
    Except Err (List String) :=
  match validate_union_type ctx f a with
  | .error e => .error e
  | .ok (originType, _, anno) =>
    if isTupleOrigin originType then
      .error (.tupleNotAllowed ctx.name f)
    else
      match (if isAnyOrigin originType then discourage_any_usage ctx f else .ok []) with
      | .error e => .error e
      | .ok ws1 =>
        if isAtomicOrigin originType then
          .ok ws1
        else if isNestedOrigin originType then
          .ok ws1
        else if !isLsdOrigin originType then
          .error (.unsupportedGeneric ctx.name f anno)
        else
          match (if isListSetOrigin originType then validate_list_set_type ctx f anno
                 else .ok []) with
          | .error e => .error e
          | .ok ws2 =>
            match (if isDictOrigin originType then validate_dict_type ctx f anno
                   else .ok []) with
            | .error e => .error e
            | .ok ws3 => .ok (ws1 ++ ws2 ++ ws3)

/-- Validation outcome with errors identified up to their raise site: the
acceptance/violation verdict, ignoring the data interpolated into the
exception message. -/
def outcomeKind : Except Err (List String) → Except ErrKind (List String)
  | .ok ws => .ok ws
  | .error e => .error (errKind e)

/-- A default strict context used for concrete evaluations. -/
def cls0 : Cls := ⟨"C", true⟩

/-- A context with the strictness flag lowered (`_validate_any = False`),
as `ModelInfo` in `src/config/model_configs.py` declares. -/
def clsLax : Cls := ⟨"ModelInfo", false⟩

/-- An atomic or nested-model annotation — the element shapes the
specification's grammar names for `List`/`Set` elements and the base
shapes for `Dict` values. -/
def isAtomicOrNested : Ann → Bool
  | .prim _ => true
  | .nestedModel => true
  | _ => false

/-! ## Field documentation extractor (`AttrDocBase._extract_field_docs`)

Doc strings are modelled as `List Char`.  `str.strip()` and
`str.splitlines()` are modelled over the whitespace characters
space/tab/CR/LF, with `'\n'` as the line separator.  (`splitLines ""` is
`[[]]` where Python gives `[]`; the processed result — after trimming and
dropping blank lines — is the empty documentation string either way.) -/

/-- The whitespace characters recognised by the model of `str.strip()`. -/
def isWsChar (c : Char) : Bool :=
  c == ' ' || c == '\t' || c == '\n' || c == '\r'

/-- Drop leading whitespace (`str.lstrip()`). -/
def trimLeft (l : List Char) : List Char := l.dropWhile isWsChar

/-- Drop trailing whitespace (`str.rstrip()`). -/
def trimRight (l : List Char) : List Char := (l.reverse.dropWhile isWsChar).reverse

/-- Model of `str.strip()`. -/
def pyStrip (l : List Char) : List Char := trimRight (trimLeft l)

/-- Model of `str.splitlines()` with `'\n'` as separator. -/
def splitLines : List Char → List (List Char)
  | [] => [[]]
  | c :: rest =>
    if c == '\n' then [] :: splitLines rest
    else
      match splitLines rest with
      | [] => [[c]]
      | l :: ls => (c :: l) :: ls

/-- Append a character to the last line of a non-empty line list (the
shape `splitLines (xs ++ [c])` takes when `c` is not a newline). -/
def appendLast : List (List Char) → Char → List (List Char)
  | [], c => [[c]]
  | [l], c => [l ++ [c]]
  | l :: ls, c => l :: appendLast ls c

/-- Drop the leading and trailing blank lines (the two `while ... pop`
loops of the source). -/
def dropBlankEnds (ls : List (List Char)) : List (List Char) :=
  ((ls.dropWhile List.isEmpty).reverse.dropWhile List.isEmpty).reverse

/-- Model of `"\n".join(lines)`. -/
def joinLines : List (List Char) → List Char
  | [] => []
  | [l] => l
  | l :: rest => l ++ '\n' :: joinLines rest

/-- The doc-string processing of `_extract_field_docs`:
`value.strip()`, then `[line.strip() for line in ....splitlines()]`, then
drop leading and trailing blank lines, then `"\n".join(...)`. -/
def processDoc (s : List Char) : List Char :=
  joinLines (dropBlankEnds ((splitLines (pyStrip s)).map pyStrip))

/-- The processing as the specification words it: split into lines, trim
each line of surrounding whitespace, drop leading and trailing blank
lines, join the remaining lines with newlines.  (No outer `strip()`;
compared against `processDoc` for the refinement claim.) -/
def specProcess (s : List Char) : List Char :=
  joinLines (dropBlankEnds ((splitLines s).map pyStrip))

/-- The statement nodes of a class body, as `_extract_field_docs`
distinguishes them:

* `annAssignName t` — an `ast.AnnAssign` whose target is a simple
  `ast.Name` `t` (an annotated field declaration);
* `annAssignOther` — an `ast.AnnAssign` with a non-`Name` target;
* `exprStr s` — an `ast.Expr` whose value is a string `ast.Constant`
  (a bare string-literal statement);
* `exprOther` — any other expression statement;
* `funcDef nm` — an `ast.FunctionDef` named `nm` (a `def` statement);
* `asyncFuncDef nm` — an `ast.AsyncFunctionDef` named `nm` (an
  `async def` statement; **not** an instance of `ast.FunctionDef`);
* `otherStmt` — any other statement node. -/
inductive Stmt where
  | annAssignName (target : String)
  | annAssignOther
  | exprStr (s : List Char)
  | exprOther
  | funcDef (nm : String)
  | asyncFuncDef (nm : String)
  | otherStmt

/-- The `AttributeError` raised by `_extract_field_docs` on a disallowed
method, carrying the offending name. -/
inductive DocErr where
  | disallowedMethod (nm : String)
deriving DecidableEq

/-- The loop of `_extract_field_docs` over the class-body statements:
raises on any `ast.FunctionDef` not named `model_post_init`; for an
annotated simple-name field declaration immediately followed by a bare
string-literal statement, stores the processed string under the field
name (`doc_dict[...] = ...`, last write wins). -/
def extract_field_docs_aux :
    List Stmt → (String → Option (List Char)) →
    Except DocErr (String → Option (List Char))
  | [], m => .ok m
  | item :: rest, m =>
    match item with
    | .funcDef nm =>
      if nm == "model_post_init" then extract_field_docs_aux rest m
      else .error (.disallowedMethod nm)
    | .annAssignName target =>
      match rest with
      | .exprStr s :: _ =>
        extract_field_docs_aux rest
          (fun k => if k = target then some (processDoc s) else m k)
      | _ => extract_field_docs_aux rest m
    | _ => extract_field_docs_aux rest m

/-- Model of `_extract_field_docs(class_node)`: the documentation map of a class
body, starting from the empty `doc_dict`. -/
def extract_field_docs (body : List Stmt) :
    Except DocErr (String → Option (List Char)) :=
  extract_field_docs_aux body (fun _ => none)

/-- The class body contains an `ast.FunctionDef` whose name is not
`model_post_init`. -/
def hasDisallowedMethod (body : List Stmt) : Bool :=
  body.any fun s =>
    match s with
    | .funcDef nm => nm != "model_post_init"
    | _ => false

/-- The statement is a callable member of the class body: a `def` or an
`async def`.  (Spec-side notion, used to state the claim about disallowed
methods.) -/
def isCallableMember : Stmt → Bool
  | .funcDef _ => true
  | .asyncFuncDef _ => true
  | _ => false

/-- The field-name/doc-string pair contributed by a statement together
with its successor: an annotated field declaration with a simple-name
target immediately followed by a bare string-literal statement. -/
def headEntry (x : Stmt) (rest : List Stmt) : Option (String × List Char) :=
  match x, rest with
  | .annAssignName t, .exprStr s :: _ => some (t, s)
  | _, _ => none

/-- The documentation the extractor's loop associates with `name`: the
processed string of the *last* annotated simple-name declaration of
`name` immediately followed by a bare string-literal statement, if any. -/
def lastDoc : List Stmt → String → Option (List Char)
  | [], _ => none
  | x :: rest, name =>
    match lastDoc rest name with
    | some d => some d
    | none =>
      match headEntry x rest with
      | some (t, s) => if t = name then some (processDoc s) else none
      | none => none

/-- The documentation map as the specification words it: a field name is
mapped exactly when an annotated field declaration (simple-name target)
is immediately followed by a bare string-literal statement, and the
stored text is that string processed as described (`specProcess`); for
repeated declarations the last one wins, matching dictionary
assignment. -/
def specDoc : List Stmt → String → Option (List Char)
  | [], _ => none
  | x :: rest, name =>
    match specDoc rest name with
    | some d => some d
    | none =>
      match headEntry x rest with
      | some (t, s) => if t = name then some (specProcess s) else none
      | none => none

/-- A concrete class body: field `a` with a documentation string, field
`b` without one, and the permitted `model_post_init` hook. -/
def docBody0 : List Stmt :=
  [Stmt.annAssignName "a",
   Stmt.exprStr [' ', 'd', 'o', 'c', '\n', '\n', ' ', 'x', ' '],
   Stmt.annAssignName "b",
   Stmt.funcDef "model_post_init"]

/-- Lookup in the extractor's result; `none` on extraction failure. -/
def docLookup (body : List Stmt) (name : String) : Option (List Char) :=
  match extract_field_docs body with
  | .ok m => m name
  | .error _ => none

/-- The extractor fails on this body. -/
def extractFails (body : List Stmt) : Bool :=
  match extract_field_docs body with
  | .ok _ => false
  | .error _ => true

/-! ## Theorems -/

/-- A non-union annotation never classifies with a union origin. -/
theorem nonUnion_getRealType (T : Ann) (h : isUnionA T = false) :
    isUnionOrigin (get_real_type T).1 = false := by
  cases T with
  | unionA args => simp [isUnionA] at h
  | pepU args => simp [isUnionA] at h
  | cont k args => cases k <;> rfl
  | bare k => cases k <;> rfl
  | prim p => rfl
  | anyA => rfl
  | nestedModel => rfl
  | otherClass => rfl
  | otherGeneric args => rfl

/-- Unwrapping lemma: `validate_union_type` maps `Optional[T]` to exactly the triple it
returns for `T`, for non-union `T` (both union spellings). -/
theorem validate_union_type_optional (ctx : Cls) (f : String) (T : Ann)
    (h : isUnionA T = false) :
    validate_union_type ctx f (.unionA [T, .prim .noneType]) = validate_union_type ctx f T
  ∧ validate_union_type ctx f (.pepU [T, .prim .noneType]) = validate_union_type ctx f T := by
  cases T with
  | unionA args => simp [isUnionA] at h
  | pepU args => simp [isUnionA] at h
  | prim p => cases p <;> exact ⟨rfl, rfl⟩
  | anyA => exact ⟨rfl, rfl⟩
  | cont k args => cases k <;> exact ⟨rfl, rfl⟩
  | bare k => cases k <;> exact ⟨rfl, rfl⟩
  | nestedModel => exact ⟨rfl, rfl⟩
  | otherClass => exact ⟨rfl, rfl⟩
  | otherGeneric args => exact ⟨rfl, rfl⟩

/-- C3: for every non-union annotation `T`, top-level field validation of
`Optional[T]` (written with `typing.Union` or with `|`) produces exactly
the same outcome as validating `T` alone: it accepts one iff it accepts
the other, any violation raised is the same, and any warning emitted is
the same. -/
theorem optional_transparent_for_non_union (ctx : Cls) (f : String) (T : Ann)
    (h : isUnionA T = false) :
    model_post_init_field ctx f (.unionA [T, .prim .noneType]) = model_post_init_field ctx f T
  ∧ model_post_init_field ctx f (.pepU [T, .prim .noneType]) = model_post_init_field ctx f T := by
  obtain ⟨h1, h2⟩ := validate_union_type_optional ctx f T h
  constructor
  · unfold model_post_init_field
    rw [h1]
  · unfold model_post_init_field
    rw [h2]

/-- Witness for C3 at `T = int`. -/
theorem optional_transparent_witness :
    isUnionA (Ann.prim .int) = false
  ∧ model_post_init_field cls0 "d" (.unionA [.prim .int, .prim .noneType])
      = model_post_init_field cls0 "d" (.prim .int) :=
  ⟨rfl, (optional_transparent_for_non_union cls0 "d" (Ann.prim .int) rfl).1⟩

/-- C4: every union annotation that is not exactly a two-armed union with
a `None` arm is rejected with the Union violation, and a two-armed
`Optional` whose non-`None` arm is itself a union is rejected with the
nested-Union violation; in each case the `typing.Union` spelling and the
PEP 604 `|` spelling behave identically. -/
theorem non_optional_union_rejected (ctx : Cls) (f : String) :
    (∀ args : List Ann,
        args.length ≠ 2 ∨ (∀ a ∈ args, isNoneTC a = false) →
        model_post_init_field ctx f (.unionA args) = .error (.unionNotAllowed ctx.name f)
      ∧ model_post_init_field ctx f (.pepU args) = .error (.unionNotAllowed ctx.name f))
  ∧ (∀ inner : Ann, isUnionA inner = true →
        model_post_init_field ctx f (.unionA [inner, .prim .noneType])
          = .error (.unionNested ctx.name f)
      ∧ model_post_init_field ctx f (.pepU [inner, .prim .noneType])
          = .error (.unionNested ctx.name f)) := by
  constructor
  · intro args h
    have hc : (args.length != 2 || args.all fun x => !isNoneTC x) = true := by
      rcases h with h | h
      · simp [bne_iff_ne, h]
      · have hall : (args.all fun x => !isNoneTC x) = true := by
          rw [List.all_eq_true]
          intro x hx
          simp [h x hx]
        simp [hall]
    constructor <;>
      · unfold model_post_init_field validate_union_type
        simp [get_real_type, getOrigin, getArgs, isUnionOrigin, hc]
  · intro inner hu
    cases inner with
    | unionA as => exact ⟨rfl, rfl⟩
    | pepU as => exact ⟨rfl, rfl⟩
    | prim p => simp [isUnionA] at hu
    | anyA => simp [isUnionA] at hu
    | cont k as => simp [isUnionA] at hu
    | bare k => simp [isUnionA] at hu
    | nestedModel => simp [isUnionA] at hu
    | otherClass => simp [isUnionA] at hu
    | otherGeneric as => simp [isUnionA] at hu

/-- Witness for C4: `Union[int, str]` / `int | str` reject with the Union
violation; `Optional`-of-union rejects with the nested-Union violation. -/
theorem non_optional_union_witness :
    model_post_init_field cls0 "u" (.unionA [.prim .int, .prim .str])
      = .error (.unionNotAllowed "C" "u")
  ∧ model_post_init_field cls0 "u" (.pepU [.prim .int, .prim .str])
      = .error (.unionNotAllowed "C" "u")
  ∧ model_post_init_field cls0 "u" (.unionA [.unionA [.prim .int, .prim .str], .prim .noneType])
      = .error (.unionNested "C" "u") :=
  ⟨((non_optional_union_rejected cls0 "u").1 [.prim .int, .prim .str]
      (Or.inr (by decide))).1,
   ((non_optional_union_rejected cls0 "u").1 [.prim .int, .prim .str]
      (Or.inr (by decide))).2,
   ((non_optional_union_rejected cls0 "u").2 (.unionA [.prim .int, .prim .str]) rfl).1⟩

/-- C1 (code behaviour at the failing input): `_validate_list_set_type`
and the full per-field validation of `model_post_init` **accept**
`Set[NestedModel]` — the source contains no hashability check on set
elements — while `List[NestedModel]` is accepted as the claim states.
The repository's own test
(`listset-validation-set-configbase-element_reject` in
`pytests/config_test/test_config_base.py`) instead expects a `TypeError`
mentioning "ConfigBase is not Hashable" for `Set[SimpleClass]`. -/
theorem set_nested_model_element_accepted_by_code :
    validate_list_set_type cls0 "items" (.cont .set [.nestedModel]) = .ok []
  ∧ model_post_init_field cls0 "items" (.cont .set [.nestedModel]) = .ok []
  ∧ model_post_init_field cls0 "items" (.cont .list [.nestedModel]) = .ok [] :=
  ⟨rfl, rfl, rfl⟩

/-- C2 (code behaviour at the failing input): with the strictness flag
lowered (`_validate_any = False`), validating an `Any`-typed field
succeeds but **always** emits the warning naming the field — the returned
warning list is `["f"]`, not `[]`.  `_discourage_any_usage` consults no
silence flag at all (the `Cls` context faithfully has no such field),
so the `suppress_any_warning` attribute set by
`src/config/model_configs.py` cannot suppress the log line, contrary to
the claim and to the repository's own test
`test_discourage_any_usage_suppressed_warning`. -/
theorem any_warning_emitted_despite_silence_flag :
    discourage_any_usage clsLax "field_z" = .ok ["field_z"]
  ∧ model_post_init_field clsLax "f" .anyA = .ok ["f"]
  ∧ model_post_init_field clsLax "f" (.cont .dict [.prim .str, .anyA]) = .ok ["f"] :=
  ⟨rfl, rfl, rfl⟩

/-- C10: a `Dict` whose value parameter is `Optional[A]` with `A` atomic
is rejected with the nested-generic violation (for both union spellings),
although the bare atomic value `A` is accepted on its own: the one-level
`Optional` unwrapping of the top level is not granted to atomic shapes in
the value position of a `Dict`. -/
theorem dict_optional_atomic_value_rejected (ctx : Cls) (f : String) (K : Ann) (p : PrimTy) :
    validate_dict_type ctx f (.cont .dict [K, .unionA [.prim p, .prim .noneType]])
      = .error (.nestedGeneric ctx.name f (.cont .dict [K, .unionA [.prim p, .prim .noneType]]))
  ∧ validate_dict_type ctx f (.cont .dict [K, .pepU [.prim p, .prim .noneType]])
      = .error (.nestedGeneric ctx.name f (.cont .dict [K, .pepU [.prim p, .prim .noneType]]))
  ∧ validate_dict_type ctx f (.cont .dict [K, .prim p]) = .ok [] :=
  ⟨by cases p <;> rfl, by cases p <;> rfl, rfl⟩

/-- C5: a `Dict` annotation without exactly two type parameters is
rejected with the arity violation; a value parameter that is itself a
`Dict` (parameterized, or the bare `typing.Dict` alias) is rejected with
the nested-generic violation; a value parameter that is an atomic shape,
a `NestedModel`, or one further `List`/`Set` level whose element is
atomic or a `NestedModel`, is accepted. -/
theorem dict_validation_characterized (ctx : Cls) (f : String) :
    (∀ args : List Ann, args.length ≠ 2 →
        validate_dict_type ctx f (.cont .dict args)
          = .error (.dictArity ctx.name f (.cont .dict args)))
  ∧ (∀ K : Ann, ∀ vargs : List Ann,
        validate_dict_type ctx f (.cont .dict [K, .cont .dict vargs])
          = .error (.nestedGeneric ctx.name f (.cont .dict [K, .cont .dict vargs])))
  ∧ (∀ K : Ann, ∀ p : PrimTy,
        validate_dict_type ctx f (.cont .dict [K, .prim p]) = .ok [])
  ∧ (∀ K : Ann,
        validate_dict_type ctx f (.cont .dict [K, .nestedModel]) = .ok [])
  ∧ (∀ K e : Ann, ∀ k : ContKind, (k = ContKind.list ∨ k = ContKind.set) →
        isAtomicOrNested e = true →
        validate_dict_type ctx f (.cont .dict [K, .cont k [e]]) = .ok []) := by
  refine ⟨?_, ?_, ?_, ?_, ?_⟩
  · intro args h
    have hb : (args.length != 2) = true := by simpa [bne_iff_ne] using h
    unfold validate_dict_type
    simp [get_real_type, getOrigin, getArgs, contOrigin, hb]
  · intro K vargs
    rfl
  · intro K p
    rfl
  · intro K
    rfl
  · intro K e k hk he
    rcases hk with rfl | rfl <;> cases e <;> simp [isAtomicOrNested] at he <;> rfl

/-- Witness for C5 at concrete annotations. -/
theorem dict_validation_witness :
    validate_dict_type cls0 "a" (.cont .dict [])
      = .error (.dictArity "C" "a" (.cont .dict []))
  ∧ validate_dict_type cls0 "a" (.cont .dict [.prim .str, .cont .dict [.prim .str, .prim .int]])
      = .error (.nestedGeneric "C" "a" (.cont .dict [.prim .str, .cont .dict [.prim .str, .prim .int]]))
  ∧ validate_dict_type cls0 "a" (.cont .dict [.prim .str, .prim .int]) = .ok []
  ∧ validate_dict_type cls0 "a" (.cont .dict [.prim .str, .nestedModel]) = .ok []
  ∧ validate_dict_type cls0 "a" (.cont .dict [.prim .str, .cont .list [.prim .int]]) = .ok [] :=
  ⟨(dict_validation_characterized cls0 "a").1 [] (by decide),
   (dict_validation_characterized cls0 "a").2.1 (.prim .str) [.prim .str, .prim .int],
   (dict_validation_characterized cls0 "a").2.2.1 (.prim .str) .int,
   (dict_validation_characterized cls0 "a").2.2.2.1 (.prim .str),
   (dict_validation_characterized cls0 "a").2.2.2.2 (.prim .str) (.prim .int) .list
     (Or.inl rfl) rfl⟩

/-- C6 counterexample: the field `items : List[P]`, with `P` a plain class
that is neither an atomic type nor a `ConfigBase` subclass (for example a
`pydantic.BaseModel` that does not extend `ConfigBase`), is **accepted**
by the full per-field validation, refuting the claim that every accepted
`List`/`Set` element parameter is an atomic shape or a `NestedModel`. -/
theorem list_plain_class_element_accepted :
    model_post_init_field cls0 "items" (.cont .list [.otherClass]) = .ok []
  ∧ isAtomicOrNested Ann.otherClass = false :=
  ⟨rfl, rfl⟩

/-- C6 (amended): a `List`/`Set` annotation accepts exactly the element
parameters whose `get_origin` is `None` (atomic shapes, `NestedModel`s,
`Any` under lowered strictness, bare builtin containers, and any other
plain class); an element parameter with a generic origin (parameterized
container or union) is rejected with the nested-generic violation; and
anything other than exactly one type parameter — including the bare
builtin `list`/`set` — is rejected with the arity violation. -/
theorem list_set_element_characterized (ctx : Cls) (f : String) (k : ContKind)
    (hk : k = ContKind.list ∨ k = ContKind.set) :
    (∀ args : List Ann, ∀ ws : List String,
        validate_list_set_type ctx f (.cont k args) = .ok ws →
        args.length = 1 ∧ ∀ e ∈ args, getOrigin e = none)
  ∧ (∀ args : List Ann, args.length ≠ 1 →
        validate_list_set_type ctx f (.cont k args)
          = .error (.listSetArity ctx.name f (.cont k args)))
  ∧ validate_list_set_type ctx f (.bare k)
      = .error (.listSetArity ctx.name f (.bare k))
  ∧ (∀ e : Ann, (getOrigin e).isSome = true →
        validate_list_set_type ctx f (.cont k [e])
          = .error (.nestedGeneric ctx.name f (.cont k [e])))
  ∧ (∀ e : Ann, getOrigin e = none → (e = Ann.anyA → ctx.validateAny = false) →
        ∃ ws : List String, validate_list_set_type ctx f (.cont k [e]) = .ok ws) := by
  refine ⟨?_, ?_, ?_, ?_, ?_⟩
  · intro args ws hok
    rcases args with _ | ⟨e, _ | ⟨e2, rest⟩⟩
    · rcases hk with rfl | rfl <;> exact Except.noConfusion hok
    · refine ⟨rfl, ?_⟩
      intro x hx
      rw [List.mem_singleton] at hx
      subst hx
      rcases hk with rfl | rfl <;>
        cases x <;> first | rfl | exact Except.noConfusion hok
    · rcases hk with rfl | rfl <;> exact Except.noConfusion hok
  · intro args h
    have hb : (args.length != 1) = true := by simpa [bne_iff_ne] using h
    rcases hk with rfl | rfl <;>
    · unfold validate_list_set_type
      simp [get_real_type, getOrigin, getArgs, contOrigin, isListSetOrigin, hb]
  · rcases hk with rfl | rfl <;> rfl
  · intro e hs
    rcases hk with rfl | rfl <;>
      cases e <;> first | rfl | exact absurd hs (by simp [getOrigin])
  · intro e h1 h2
    rcases hk with rfl | rfl <;>
      cases e <;>
        first
        | exact ⟨[], rfl⟩
        | exact Option.noConfusion h1
        | · refine ⟨[f], ?_⟩
            have hva : ctx.validateAny = false := h2 rfl
            unfold validate_list_set_type
            simp [get_real_type, getOrigin, getArgs, contOrigin, isListSetOrigin,
              isAnyAnn, discourage_any_usage, hva]

/-- Witness for C6 (amended) at concrete inputs. -/
theorem list_set_element_characterized_witness :
    (validate_list_set_type cls0 "b" (.cont .list [.prim .int]) = .ok [] →
      ([Ann.prim .int].length = 1 ∧ ∀ e ∈ [Ann.prim .int], getOrigin e = none))
  ∧ validate_list_set_type cls0 "b" (.cont .list [])
      = .error (.listSetArity "C" "b" (.cont .list []))
  ∧ validate_list_set_type cls0 "b" (.cont .set [.cont .list [.prim .int]])
      = .error (.nestedGeneric "C" "b" (.cont .set [.cont .list [.prim .int]]))
  ∧ ∃ ws : List String, validate_list_set_type cls0 "b" (.cont .list [.otherClass]) = .ok ws :=
  ⟨(list_set_element_characterized cls0 "b" .list (Or.inl rfl)).1 [.prim .int] [],
   (list_set_element_characterized cls0 "b" .list (Or.inl rfl)).2.1 [] (by decide),
   (list_set_element_characterized cls0 "b" .set (Or.inr rfl)).2.2.2.1
     (.cont .list [.prim .int]) rfl,
   (list_set_element_characterized cls0 "b" .list (Or.inl rfl)).2.2.2.2
     .otherClass rfl (fun h => Ann.noConfusion h)⟩

/-- The value-checking tail of `_validate_dict_type` yields the same
outcome kind whatever annotation is rendered into the nested-generic
message. -/
theorem dict_val_check_payload_indep (ctx : Cls) (f : String) (a b V : Ann) :
    outcomeKind (dict_val_check ctx f a V) = outcomeKind (dict_val_check ctx f b V) := by
  unfold dict_val_check
  repeat first | rfl | split

/-- C7: for a `Dict` annotation with exactly two type parameters, the
validation outcome — acceptance with its warnings, or the kind of the
violation raised — never depends on the key parameter: `_validate_dict_type`
unpacks `(_, val_t) = args` and never examines the key. -/
theorem dict_outcome_key_independent (ctx : Cls) (f : String) (K1 K2 V : Ann) :
    outcomeKind (validate_dict_type ctx f (.cont .dict [K1, V]))
  = outcomeKind (validate_dict_type ctx f (.cont .dict [K2, V])) := by
  have h1 : validate_dict_type ctx f (.cont .dict [K1, V])
      = dict_val_check ctx f (.cont .dict [K1, V]) V := rfl
  have h2 : validate_dict_type ctx f (.cont .dict [K2, V])
      = dict_val_check ctx f (.cont .dict [K2, V]) V := rfl
  rw [h1, h2]
  exact dict_val_check_payload_indep ctx f _ _ V

/-! ### String-processing lemmas: the outer `strip()` is invisible -/

theorem dropWhile_append_eq {α : Type} (p : α → Bool) (l₁ l₂ : List α) :
    (l₁ ++ l₂).dropWhile p =
      if (l₁.dropWhile p).isEmpty then l₂.dropWhile p else l₁.dropWhile p ++ l₂ := by
  induction l₁ with
  | nil => simp
  | cons a l ih =>
    by_cases h : p a
    · simpa [List.dropWhile_cons, h] using ih
    · simp [List.dropWhile_cons, h]

theorem rdropWhile_dropWhile_comm {α : Type} (p : α → Bool) (l : List α) :
    List.rdropWhile p (l.dropWhile p) = (List.rdropWhile p l).dropWhile p := by
  induction l using List.reverseRecOn with
  | nil => simp
  | append_singleton l x ih =>
    by_cases h : p x
    · rw [List.rdropWhile_concat_pos p l x h, dropWhile_append_eq]
      by_cases he : (l.dropWhile p).isEmpty
      · have hall : ∀ y ∈ l, p y = true := by
          rw [← List.dropWhile_eq_nil_iff]
          exact List.isEmpty_iff.mp he
        have h1 : List.dropWhile p [x] = [] := by simp [List.dropWhile_cons, h]
        have h2 : (List.rdropWhile p l).dropWhile p = [] := by
          rw [List.dropWhile_eq_nil_iff]
          intro y hy
          exact hall y ((List.rdropWhile_prefix p l).subset hy)
        simp [he, h1, h2]
      · rw [if_neg he, List.rdropWhile_concat_pos p _ x h, ih]
    · rw [List.rdropWhile_concat_neg p l x h, dropWhile_append_eq]
      by_cases he : (l.dropWhile p).isEmpty
      · rw [if_pos he]
        simp [List.dropWhile_cons, h, List.rdropWhile_singleton]
      · rw [if_neg he, List.rdropWhile_concat_neg p _ x h]

/-- The function `trimRight` is `List.rdropWhile` at `isWsChar`. -/
theorem trimRight_eq (l : List Char) : trimRight l = List.rdropWhile isWsChar l := rfl

/-- Rewriting `pyStrip` as right-then-left stripping. -/
theorem pyStrip_eq_drop_rdrop (l : List Char) :
    pyStrip l = (List.rdropWhile isWsChar l).dropWhile isWsChar := by
  rw [← rdropWhile_dropWhile_comm]
  rfl

/-- Rewriting `dropBlankEnds` as right-then-left dropping of blank lines. -/
theorem dropBlankEnds_eq (ls : List (List Char)) :
    dropBlankEnds ls = List.rdropWhile List.isEmpty (ls.dropWhile List.isEmpty) := rfl

theorem pyStrip_cons_ws {c : Char} (h : isWsChar c = true) (l : List Char) :
    pyStrip (c :: l) = pyStrip l := by
  unfold pyStrip trimLeft
  rw [List.dropWhile_cons, if_pos h]

theorem pyStrip_concat_ws {c : Char} (h : isWsChar c = true) (l : List Char) :
    pyStrip (l ++ [c]) = pyStrip l := by
  rw [pyStrip_eq_drop_rdrop, pyStrip_eq_drop_rdrop, List.rdropWhile_concat_pos _ _ c h]

theorem splitLines_ne_nil (s : List Char) : splitLines s ≠ [] := by
  cases s with
  | nil => simp [splitLines]
  | cons c rest =>
    unfold splitLines
    split
    · simp
    · split <;> simp

theorem splitLines_cons_shape (s : List Char) :
    ∃ y ys, splitLines s = y :: ys := by
  rcases h : splitLines s with _ | ⟨y, ys⟩
  · exact absurd h (splitLines_ne_nil s)
  · exact ⟨y, ys, rfl⟩

theorem appendLast_cons (l y : List Char) (ys : List (List Char)) (c : Char) :
    appendLast (l :: y :: ys) c = l :: appendLast (y :: ys) c := rfl

theorem splitLines_concat (xs : List Char) (c : Char) :
    splitLines (xs ++ [c]) =
      if c = '\n' then splitLines xs ++ [[]] else appendLast (splitLines xs) c := by
  induction xs with
  | nil => by_cases h : c = '\n' <;> simp [splitLines, appendLast, h]
  | cons d xs ih =>
    obtain ⟨y, ys, hyy⟩ := splitLines_cons_shape xs
    by_cases hd : d = '\n'
    · subst hd
      have hl : splitLines ('\n' :: (xs ++ [c])) = [] :: splitLines (xs ++ [c]) := by
        simp [splitLines]
      have hr : splitLines ('\n' :: xs) = [] :: splitLines xs := by
        simp [splitLines]
      rw [List.cons_append, hl, ih, hr]
      by_cases hc : c = '\n'
      · simp [hc]
      · rw [if_neg hc, if_neg hc, hyy, appendLast_cons]
    · have hl : splitLines (d :: (xs ++ [c])) =
          (d :: (splitLines (xs ++ [c])).headI) :: (splitLines (xs ++ [c])).tail := by
        obtain ⟨z, zs, hzz⟩ := splitLines_cons_shape (xs ++ [c])
        simp [splitLines, hd, hzz]
      have hr : splitLines (d :: xs) = (d :: y) :: ys := by
        simp [splitLines, hd, hyy]
      rw [List.cons_append, hl, ih]
      by_cases hc : c = '\n'
      · rw [if_pos hc, if_pos hc, hyy, hr]
        simp
      · rw [if_neg hc, if_neg hc, hyy, hr]
        rcases ys with _ | ⟨z, zs⟩
        · simp [appendLast]
        · simp [appendLast_cons, appendLast]

/-- Leading whitespace stripped from the raw doc string is invisible after
per-line trimming and leading-blank-line dropping. -/
theorem trimLeft_invisible (s : List Char) :
    ((splitLines (trimLeft s)).map pyStrip).dropWhile List.isEmpty
  = ((splitLines s).map pyStrip).dropWhile List.isEmpty := by
  induction s with
  | nil => rfl
  | cons c s ih =>
    by_cases hw : isWsChar c = true
    · have ht : trimLeft (c :: s) = trimLeft s := by
        simp [trimLeft, List.dropWhile_cons, hw]
      rw [ht, ih]
      by_cases hc : c = '\n'
      · subst hc
        have hl : splitLines ('\n' :: s) = [] :: splitLines s := by simp [splitLines]
        rw [hl]
        simp [pyStrip, trimLeft, trimRight]
      · obtain ⟨y, ys, hyy⟩ := splitLines_cons_shape s
        have hl : splitLines (c :: s) = (c :: y) :: ys := by
          simp [splitLines, hc, hyy]
        rw [hl, hyy]
        simp [pyStrip_cons_ws hw]
    · have ht : trimLeft (c :: s) = c :: s := by
        simp [trimLeft, List.dropWhile_cons, hw]
      rw [ht]

/-- Appending a (trailing-whitespace) character to the last line is
invisible after per-line trimming, for a non-empty line list. -/
theorem map_pyStrip_appendLast {c : Char} (hw : isWsChar c = true) :
    ∀ y : List Char, ∀ ys : List (List Char),
      (appendLast (y :: ys) c).map pyStrip = (y :: ys).map pyStrip := by
  intro y ys
  induction ys generalizing y with
  | nil => simp [appendLast, pyStrip_concat_ws hw]
  | cons z zs ih => simp only [appendLast_cons, List.map_cons, ih z]

/-- Trailing whitespace stripped from the raw doc string is invisible
after per-line trimming and blank-end dropping. -/
theorem trimRight_invisible (s : List Char) :
    dropBlankEnds ((splitLines (trimRight s)).map pyStrip)
  = dropBlankEnds ((splitLines s).map pyStrip) := by
  induction s using List.reverseRecOn with
  | nil => rfl
  | append_singleton u c ih =>
    by_cases hw : isWsChar c = true
    · have ht : trimRight (u ++ [c]) = trimRight u := by
        rw [trimRight_eq, trimRight_eq]
        exact List.rdropWhile_concat_pos _ _ c hw
      rw [ht, ih]
      by_cases hc : c = '\n'
      · subst hc
        rw [splitLines_concat, if_pos rfl]
        have h1 : (splitLines u ++ [[]]).map pyStrip = (splitLines u).map pyStrip ++ [[]] := by
          simp [pyStrip, trimLeft, trimRight]
        rw [h1, dropBlankEnds_eq, dropBlankEnds_eq, dropWhile_append_eq]
        by_cases he : (((splitLines u).map pyStrip).dropWhile List.isEmpty).isEmpty
        · rw [if_pos he]
          rw [List.isEmpty_iff.mp he]
          simp [List.dropWhile, List.rdropWhile]
        · rw [if_neg he, List.rdropWhile_concat_pos _ _ _ (by rfl)]
      · obtain ⟨y, ys, hyy⟩ := splitLines_cons_shape u
        rw [splitLines_concat, if_neg hc, hyy, map_pyStrip_appendLast hw y ys]
    · have ht : trimRight (u ++ [c]) = u ++ [c] := by
        rw [trimRight_eq]
        exact List.rdropWhile_concat_neg _ _ c hw
      rw [ht]

/-- The source's doc-string processing (with the outer `strip()`) computes
exactly the processing the specification describes (without it). -/
theorem processDoc_eq_specProcess (s : List Char) : processDoc s = specProcess s := by
  have h1 : dropBlankEnds ((splitLines (trimRight (trimLeft s))).map pyStrip)
      = dropBlankEnds ((splitLines (trimLeft s)).map pyStrip) := trimRight_invisible (trimLeft s)
  have h2 : dropBlankEnds ((splitLines (trimLeft s)).map pyStrip)
      = dropBlankEnds ((splitLines s).map pyStrip) := by
    rw [dropBlankEnds_eq, dropBlankEnds_eq, trimLeft_invisible s]
  exact congrArg joinLines (h1.trans h2)


/-! ### Extraction-loop lemmas -/

/-- A statement contributing no field/doc pair is invisible to the
last-wins overlay. -/
theorem overlay_boring (x : Stmt) (rest : List Stmt)
    (hx : headEntry x rest = none)
    (m0 : String → Option (List Char)) (k : String) :
    (match lastDoc (x :: rest) k with | some d => some d | none => m0 k)
  = (match lastDoc rest k with | some d => some d | none => m0 k) := by
  have e : lastDoc (x :: rest) k
      = match lastDoc rest k with
        | some d => some d
        | none => none := by
    simp only [lastDoc, hx]
  rw [e]
  cases lastDoc rest k <;> rfl

/-- An annotated field declaration followed by its doc string updates the
last-wins overlay exactly like the loop's dictionary assignment. -/
theorem overlay_entry (t : String) (s : List Char) (rest2 : List Stmt)
    (m0 : String → Option (List Char)) (k : String) :
    (match lastDoc (Stmt.exprStr s :: rest2) k with
     | some d => some d
     | none => if k = t then some (processDoc s) else m0 k)
  = (match lastDoc (Stmt.annAssignName t :: Stmt.exprStr s :: rest2) k with
     | some d => some d | none => m0 k) := by
  have e : lastDoc (Stmt.annAssignName t :: Stmt.exprStr s :: rest2) k
      = match lastDoc (Stmt.exprStr s :: rest2) k with
        | some d => some d
        | none => if t = k then some (processDoc s) else none := by
    simp only [lastDoc, headEntry]
  rw [e]
  cases lastDoc (Stmt.exprStr s :: rest2) k with
  | some d => rfl
  | none =>
    by_cases hk : k = t
    · subst hk
      simp
    · rw [if_neg hk, if_neg fun h2 => hk h2.symm]

/-- In the absence of a disallowed method, the extraction loop succeeds
and computes, over its accumulator, exactly the last-wins overlay of
`lastDoc`. -/
theorem extract_aux_ok (body : List Stmt) :
    ∀ m0 : String → Option (List Char), hasDisallowedMethod body = false →
    extract_field_docs_aux body m0
      = .ok (fun k => match lastDoc body k with | some d => some d | none => m0 k) := by
  induction body with
  | nil =>
    intro m0 h
    exact congrArg Except.ok (funext fun k => rfl)
  | cons x rest ih =>
    intro m0 h
    have hrest : hasDisallowedMethod rest = false := by
      simp only [hasDisallowedMethod, List.any_cons, Bool.or_eq_false_iff] at h
      exact h.2
    cases x with
    | funcDef nm =>
      have hnm : (nm == "model_post_init") = true := by
        simp only [hasDisallowedMethod, List.any_cons, Bool.or_eq_false_iff] at h
        simpa [bne] using h.1
      show (if (nm == "model_post_init") = true then extract_field_docs_aux rest m0
            else .error (.disallowedMethod nm)) = _
      rw [if_pos hnm]
      exact (ih m0 hrest).trans
        (congrArg Except.ok (funext fun k =>
          (overlay_boring (Stmt.funcDef nm) rest rfl m0 k).symm))
    | annAssignName t =>
      rcases rest with _ | ⟨r1, rest2⟩
      · exact congrArg Except.ok (funext fun k => rfl)
      · cases r1 with
        | exprStr s =>
          exact (ih _ hrest).trans
            (congrArg Except.ok (funext fun k => overlay_entry t s rest2 m0 k))
        | annAssignName t2 =>
          exact (ih m0 hrest).trans
            (congrArg Except.ok (funext fun k =>
              (overlay_boring (Stmt.annAssignName t) (Stmt.annAssignName t2 :: rest2) rfl m0 k).symm))
        | annAssignOther =>
          exact (ih m0 hrest).trans
            (congrArg Except.ok (funext fun k =>
              (overlay_boring (Stmt.annAssignName t) (Stmt.annAssignOther :: rest2) rfl m0 k).symm))
        | exprOther =>
          exact (ih m0 hrest).trans
            (congrArg Except.ok (funext fun k =>
              (overlay_boring (Stmt.annAssignName t) (Stmt.exprOther :: rest2) rfl m0 k).symm))
        | funcDef nm2 =>
          exact (ih m0 hrest).trans
            (congrArg Except.ok (funext fun k =>
              (overlay_boring (Stmt.annAssignName t) (Stmt.funcDef nm2 :: rest2) rfl m0 k).symm))
        | asyncFuncDef nm2 =>
          exact (ih m0 hrest).trans
            (congrArg Except.ok (funext fun k =>
              (overlay_boring (Stmt.annAssignName t) (Stmt.asyncFuncDef nm2 :: rest2) rfl m0 k).symm))
        | otherStmt =>
          exact (ih m0 hrest).trans
            (congrArg Except.ok (funext fun k =>
              (overlay_boring (Stmt.annAssignName t) (Stmt.otherStmt :: rest2) rfl m0 k).symm))
    | annAssignOther =>
      exact (ih m0 hrest).trans
        (congrArg Except.ok (funext fun k =>
          (overlay_boring Stmt.annAssignOther rest rfl m0 k).symm))
    | exprStr s =>
      exact (ih m0 hrest).trans
        (congrArg Except.ok (funext fun k =>
          (overlay_boring (Stmt.exprStr s) rest rfl m0 k).symm))
    | exprOther =>
      exact (ih m0 hrest).trans
        (congrArg Except.ok (funext fun k =>
          (overlay_boring Stmt.exprOther rest rfl m0 k).symm))
    | asyncFuncDef nm =>
      exact (ih m0 hrest).trans
        (congrArg Except.ok (funext fun k =>
          (overlay_boring (Stmt.asyncFuncDef nm) rest rfl m0 k).symm))
    | otherStmt =>
      exact (ih m0 hrest).trans
        (congrArg Except.ok (funext fun k =>
          (overlay_boring Stmt.otherStmt rest rfl m0 k).symm))

/-- The extraction loop fails exactly when the body contains an
`ast.FunctionDef` not named `model_post_init`, whatever the
accumulator. -/
theorem extract_aux_fails (body : List Stmt) :
    ∀ m0 : String → Option (List Char),
    (match extract_field_docs_aux body m0 with
     | .ok _ => false
     | .error _ => true) = hasDisallowedMethod body := by
  induction body with
  | nil => intro m0; rfl
  | cons x rest ih =>
    intro m0
    cases x with
    | funcDef nm =>
      show (match (if (nm == "model_post_init") = true then extract_field_docs_aux rest m0
                   else .error (.disallowedMethod nm)) with
            | .ok _ => false
            | .error _ => true) = _
      by_cases hnm : (nm == "model_post_init") = true
      · rw [if_pos hnm, ih m0]
        have h2 : (nm != "model_post_init") = false := by simp [bne, hnm]
        simp [hasDisallowedMethod, List.any_cons, h2]
      · rw [if_neg hnm]
        have h2 : (nm != "model_post_init") = true := by simp [bne] at hnm ⊢; exact hnm
        simp [hasDisallowedMethod, List.any_cons, h2]
    | annAssignName t =>
      rcases rest with _ | ⟨r1, rest2⟩
      · rfl
      · have hd : hasDisallowedMethod (Stmt.annAssignName t :: r1 :: rest2)
            = hasDisallowedMethod (r1 :: rest2) := by
          simp [hasDisallowedMethod, List.any_cons]
        rw [hd]
        cases r1 with
        | exprStr s => exact ih (fun k => if k = t then some (processDoc s) else m0 k)
        | annAssignName t2 => exact ih m0
        | annAssignOther => exact ih m0
        | exprOther => exact ih m0
        | funcDef nm2 => exact ih m0
        | asyncFuncDef nm2 => exact ih m0
        | otherStmt => exact ih m0
    | annAssignOther =>
      have hd : hasDisallowedMethod (Stmt.annAssignOther :: rest)
          = hasDisallowedMethod rest := by
        simp [hasDisallowedMethod, List.any_cons]
      rw [hd]
      exact ih m0
    | exprStr s =>
      have hd : hasDisallowedMethod (Stmt.exprStr s :: rest)
          = hasDisallowedMethod rest := by
        simp [hasDisallowedMethod, List.any_cons]
      rw [hd]
      exact ih m0
    | exprOther =>
      have hd : hasDisallowedMethod (Stmt.exprOther :: rest)
          = hasDisallowedMethod rest := by
        simp [hasDisallowedMethod, List.any_cons]
      rw [hd]
      exact ih m0
    | asyncFuncDef nm =>
      have hd : hasDisallowedMethod (Stmt.asyncFuncDef nm :: rest)
          = hasDisallowedMethod rest := by
        simp [hasDisallowedMethod, List.any_cons]
      rw [hd]
      exact ih m0
    | otherStmt =>
      have hd : hasDisallowedMethod (Stmt.otherStmt :: rest)
          = hasDisallowedMethod rest := by
        simp [hasDisallowedMethod, List.any_cons]
      rw [hd]
      exact ih m0

/-- Agreement of `lastDoc` with the specification-worded map `specDoc`. -/
theorem lastDoc_eq_specDoc (body : List Stmt) (name : String) :
    lastDoc body name = specDoc body name := by
  induction body with
  | nil => rfl
  | cons x rest ih =>
    show (match lastDoc rest name with
          | some d => some d
          | none =>
            match headEntry x rest with
            | some (t, s) => if t = name then some (processDoc s) else none
            | none => none)
       = (match specDoc rest name with
          | some d => some d
          | none =>
            match headEntry x rest with
            | some (t, s) => if t = name then some (specProcess s) else none
            | none => none)
    rw [ih]
    cases specDoc rest name with
    | some d => rfl
    | none =>
      cases headEntry x rest with
      | none => rfl
      | some ts =>
        obtain ⟨t, s⟩ := ts
        by_cases ht : t = name <;> simp [ht, processDoc_eq_specProcess]

/-- C8: over a class body free of disallowed methods, documentation
extraction maps a field name to a documentation string exactly when an
annotated field declaration with a simple-name target is immediately
followed by a bare string-literal statement, and the stored text is that
string split into lines, each line trimmed, leading and trailing blank
lines dropped, and the rest joined with newlines (`specDoc`); a field
with no such trailing string gets no entry. -/
theorem extract_field_docs_matches_spec (body : List Stmt) (name : String)
    (h : hasDisallowedMethod body = false) :
    docLookup body name = specDoc body name := by
  have e := extract_aux_ok body (fun _ => none) h
  show (match extract_field_docs body with
        | .ok m => m name
        | .error _ => none) = specDoc body name
  rw [show extract_field_docs body = extract_field_docs_aux body (fun _ => none) from rfl, e]
  show (match lastDoc body name with | some d => some d | none => none) = specDoc body name
  rw [← lastDoc_eq_specDoc]
  cases lastDoc body name <;> rfl

/-- Witness for C8 on a concrete class body: field `a` carries the
documentation `" doc\n\n x "`, stored as `"doc\n\nx"`; field `b` gets no
entry. -/
theorem extract_field_docs_matches_spec_witness :
    hasDisallowedMethod docBody0 = false
  ∧ docLookup docBody0 "a" = specDoc docBody0 "a"
  ∧ docLookup docBody0 "b" = specDoc docBody0 "b"
  ∧ docLookup docBody0 "a" = some ['d', 'o', 'c', '\n', '\n', 'x']
  ∧ docLookup docBody0 "b" = none :=
  ⟨rfl,
   extract_field_docs_matches_spec docBody0 "a" rfl,
   extract_field_docs_matches_spec docBody0 "b" rfl,
   by decide,
   by decide⟩

/-- C9 counterexample: a class body whose only member is the callable
`async def helper` — a callable member not named `model_post_init` — is
**accepted** by documentation extraction (it produces an empty DocMap
rather than failing): the source's check is `isinstance(body_item,
ast.FunctionDef)`, and `ast.AsyncFunctionDef` is not an
`ast.FunctionDef`. -/
theorem async_callable_member_not_rejected :
    extract_field_docs [Stmt.asyncFuncDef "helper"] = .ok (fun _ => none)
  ∧ isCallableMember (Stmt.asyncFuncDef "helper") = true
  ∧ "helper" ≠ "model_post_init" :=
  ⟨rfl, rfl, by decide⟩

/-- C9 (amended): documentation extraction fails — with the
disallowed-method error, producing no DocMap — exactly when the class
body contains a plain `def` statement (`ast.FunctionDef`) whose name is
not `model_post_init`; in particular a body whose only `def` is
`model_post_init` does not fail on this rule, and `async def` statements
or callables bound by assignment are not caught. -/
theorem extract_fails_iff_disallowed_funcdef (body : List Stmt) :
    extractFails body = true ↔
      ∃ nm, nm ≠ "model_post_init" ∧ Stmt.funcDef nm ∈ body := by
  have e := extract_aux_fails body (fun _ => none)
  constructor
  · intro hf
    have hd : hasDisallowedMethod body = true := e.symm.trans hf
    rw [hasDisallowedMethod, List.any_eq_true] at hd
    obtain ⟨x, hx, hpx⟩ := hd
    cases x with
    | funcDef nm =>
      refine ⟨nm, ?_, hx⟩
      simpa [bne_iff_ne] using hpx
    | annAssignName t => exact Bool.noConfusion hpx
    | annAssignOther => exact Bool.noConfusion hpx
    | exprStr s => exact Bool.noConfusion hpx
    | exprOther => exact Bool.noConfusion hpx
    | asyncFuncDef nm => exact Bool.noConfusion hpx
    | otherStmt => exact Bool.noConfusion hpx
  · rintro ⟨nm, hnm, hmem⟩
    refine e.trans ?_
    rw [hasDisallowedMethod, List.any_eq_true]
    exact ⟨Stmt.funcDef nm, hmem, by simpa [bne_iff_ne] using hnm⟩

end ConfigBase
